import Mathlib

/-!
Shallow embedding of the shared-ledger bookkeeping store implemented in
src/database.py, together with proofs about its operations.

Modelling conventions:
* Each SQLite table is a Lean list of row structures, in insertion order
  (SQLite visits rows of these tables in rowid order, which is insertion
  order, so a SELECT ... LIMIT 1 corresponds to List.find?).
* Monetary amounts (column price, NUMERIC) are rationals; a possible SQL
  NULL is modelled with Option.
* Errors: the Python layer raises sqlite3.OperationalError for its explicit
  "not found" checks and sqlite3.IntegrityError for primary-key/foreign-key
  violations (PRAGMA foreign_keys = ON is set on every connection).  These
  map to Err.notFound and Err.integrityViolation.
* Every write runs inside one transaction (the Python `with conn:` block
  commits on success and rolls back on an exception), so a write is a
  single atomic step on the database state: writes return the error or
  result together with the post-state, and an erroring write returns the
  state unchanged.
* Out-of-process inputs (the uuid7 result used as the fresh id, the
  current UTC time from time.gmtime) are passed as explicit parameters.
-/

/-- Error outcomes surfaced by the storage layer: OperationalError for the
explicit existence checks, IntegrityError for constraint violations. -/
inductive Err where
  | notFound
  | integrityViolation
deriving DecidableEq, Repr

/-- Row of the users table (user_id TEXT PRIMARY KEY, user_name, hashed_password). -/
structure UserRow where
  user_id : String
  user_name : String
  hashed_password : String
deriving DecidableEq, Repr

/-- Row of the ledgers table (ledger_id TEXT PRIMARY KEY, creator_id, ledger_name, create_time). -/
structure LedgerRow where
  ledger_id : String
  creator_id : String
  ledger_name : String
  create_time : String
deriving DecidableEq, Repr

/-- Row of the user_ledgers table (PRIMARY KEY (user_id, ledger_id)). -/
structure UserLedgerRow where
  user_id : String
  ledger_id : String
deriving DecidableEq, Repr

/-- Row of the transactions table. -/
structure TxRow where
  transaction_id : String
  ledger_id : String
  payer_id : String
  price : Option ℚ
  description : Option String
  payment_time : String
deriving DecidableEq, Repr

/-- Row of the user_transactions table (PRIMARY KEY (user_id, transaction_id)). -/
structure UserTxRow where
  user_id : String
  transaction_id : String
deriving DecidableEq, Repr

/-- The five-table database state of src/database.py. -/
structure DB where
  users : List UserRow
  ledgers : List LedgerRow
  user_ledgers : List UserLedgerRow
  transactions : List TxRow
  user_transactions : List UserTxRow
deriving DecidableEq, Repr

/-- Boolean lexicographic less-or-equal on char lists: the order Python uses
to compare strings (code-point lexicographic).  Structural, so the kernel
can evaluate it. -/
def lexLeb : List Char → List Char → Bool
  | [], _ => true
  | _ :: _, [] => false
  | a :: as, b :: bs => if a < b then true else if b < a then false else lexLeb as bs

/-- Code-point lexicographic less-or-equal on strings. -/
def strLeb (a b : String) : Bool :=
  lexLeb a.toList b.toList

/-- Model of Python sorted(set(l)): the duplicate-free list holding exactly
the members of l in ascending string order. -/
def sortedUnique (l : List String) : List String :=
  l.dedup.insertionSort (fun a b => strLeb a b = true)

/-- Model of Python str.strip(): drop ASCII whitespace from both ends.
(Python also strips some further Unicode whitespace; the inputs this
repository produces only ever contain these.) -/
def isPySpace (c : Char) : Bool :=
  c = ' ' || c = '\t' || c = '\n' || c = '\x0d' || c = '\x0b' || c = '\x0c'

/-- Strip leading and trailing whitespace from a char list. -/
def pyStripList (l : List Char) : List Char :=
  ((l.dropWhile isPySpace).reverse.dropWhile isPySpace).reverse

/-- Python (create_time or "").strip() on a string. -/
def pyStrip (s : String) : String :=
  String.mk (pyStripList s.toList)

/-- The created_date computation of get_ledger_info (src/database.py lines
332-343): strip the stored timestamp, take its first 7 characters when it
has at least 7, and if that prefix has length 7 with a dash at index 4,
render "MM-YY" from characters 5-6 and 2-3; otherwise return "". -/
def createdDate (create_time : String) : String :=
  let s := pyStripList create_time.toList
  let yymm := if s.length ≥ 7 then s.take 7 else []
  if yymm.length = 7 ∧ yymm.getD 4 ' ' = '-' then
    String.mk (yymm.drop 5) ++ "-" ++ String.mk ((yymm.take 4).drop 2)
  else
    ""

/-- Result record of get_ledger_info. -/
structure LedgerInfo where
  ledger_name : String
  involved_user : List String
  created_date : String
deriving DecidableEq, Repr

/-- get_ledger_info (src/database.py lines 303-349): look up the ledger row
(OperationalError when absent), collect the user_ledgers participants, add
the creator, sort, and render the creation month. -/
def get_ledger_info (st : DB) (ledger_id : String) : Except Err LedgerInfo :=
  match st.ledgers.find? (fun r => r.ledger_id == ledger_id) with
  | none => .error .notFound
  | some row =>
    let users := (st.user_ledgers.filter (fun ul => ul.ledger_id == ledger_id)).map
      (fun ul => ul.user_id)
    .ok { ledger_name := row.ledger_name
          involved_user := sortedUnique (users ++ [row.creator_id])
          created_date := createdDate row.create_time }

/-- login (src/database.py lines 167-179): fetch the first users row with
the given user_name; return its user_id when its stored hash equals the
supplied one, and None otherwise (also when no row matches). -/
def login (st : DB) (user_name hashed_password : String) : Option String :=
  match st.users.find? (fun u => u.user_name == user_name) with
  | none => none
  | some row => if row.hashed_password == hashed_password then some row.user_id else none

/-- SQL aggregate SUM over the selected price column: NULL when no non-NULL
value is seen, otherwise the sum of the non-NULL values. -/
def sqlSum (l : List (Option ℚ)) : Option ℚ :=
  l.foldl (fun acc x =>
    match x with
    | none => acc
    | some v => some (acc.getD 0 + v)) none

/-- compute_expense (src/database.py lines 268-278):
SELECT COALESCE(SUM(price), 0) FROM transactions WHERE ledger_id = ?. -/
def compute_expense (st : DB) (ledger_id : String) : ℚ :=
  (sqlSum ((st.transactions.filter (fun t => t.ledger_id == ledger_id)).map
    (fun t => t.price))).getD 0

/-- link_user_to_ledger (src/database.py lines 281-289): INSERT INTO
user_ledgers.  SQLite raises IntegrityError when the (user_id, ledger_id)
primary key already exists or when either foreign key is unsatisfied; the
transaction then rolls back, leaving the state unchanged. -/
def link_user_to_ledger (st : DB) (ledger_id : String) (user_id : String) :
    Except Err Unit × DB :=
  if st.user_ledgers.any (fun ul => ul.user_id == user_id && ul.ledger_id == ledger_id) then
    (.error .integrityViolation, st)
  else if !(st.users.any (fun u => u.user_id == user_id)) then
    (.error .integrityViolation, st)
  else if !(st.ledgers.any (fun r => r.ledger_id == ledger_id)) then
    (.error .integrityViolation, st)
  else
    (.ok (), { st with user_ledgers := st.user_ledgers ++ [⟨user_id, ledger_id⟩] })

/-- Broken-down UTC time as returned by Python time.gmtime(); gmtime
guarantees 1 ≤ month ≤ 12, 1 ≤ day ≤ 31, hour ≤ 23, minute ≤ 59,
second ≤ 61. -/
structure Tm where
  year : ℕ
  month : ℕ
  day : ℕ
  hour : ℕ
  minute : ℕ
  second : ℕ
deriving DecidableEq, Repr

/-- Two-digit zero-padded decimal rendering, as strftime %m/%d/%H/%M/%S
produce for the in-range values gmtime yields. -/
def pad2 (n : ℕ) : List Char :=
  [Nat.digitChar (n / 10 % 10), Nat.digitChar (n % 10)]

/-- Four-digit zero-padded decimal rendering, as strftime %Y produces for
years below 10000. -/
def pad4 (n : ℕ) : List Char :=
  [Nat.digitChar (n / 1000 % 10), Nat.digitChar (n / 100 % 10),
   Nat.digitChar (n / 10 % 10), Nat.digitChar (n % 10)]

/-- time.strftime("%Y-%m-%d", t): the current UTC calendar date. -/
def fmtDate (t : Tm) : String :=
  String.mk (pad4 t.year ++ '-' :: pad2 t.month ++ '-' :: pad2 t.day)

/-- time.strftime("%Y-%m-%d %H:%M:%S", t): the current UTC date-and-time. -/
def fmtDateTime (t : Tm) : String :=
  String.mk (pad4 t.year ++ '-' :: pad2 t.month ++ '-' :: pad2 t.day ++
    ' ' :: pad2 t.hour ++ ':' :: pad2 t.minute ++ ':' :: pad2 t.second)

/-- Shape check for a "YYYY-MM-DD HH:MM:SS" string: 19 characters, digits
everywhere except the fixed separators. -/
def isDateTimeShape (s : String) : Bool :=
  match s.toList with
  | [y1, y2, y3, y4, c1, m1, m2, c2, d1, d2, c3, h1, h2, c4, n1, n2, c5, s1, s2] =>
    y1.isDigit && y2.isDigit && y3.isDigit && y4.isDigit && c1 == '-' &&
    m1.isDigit && m2.isDigit && c2 == '-' && d1.isDigit && d2.isDigit &&
    c3 == ' ' && h1.isDigit && h2.isDigit && c4 == ':' && n1.isDigit &&
    n2.isDigit && c5 == ':' && s1.isDigit && s2.isDigit
  | _ => false

/-- The default ledger name of add_ledger:
f"{creator_name} 的账本 {now_date}". -/
def defaultLedgerName (creator_name now_date : String) : String :=
  creator_name ++ " 的账本 " ++ now_date

/-- add_ledger (src/database.py lines 182-216).  Parameters beyond the
database state: the uuid7 result used as the new ledger id and the gmtime
value.  Looks up the creator's user_name (OperationalError when absent),
substitutes the default name when the given name is None or strips to "",
and inserts the ledger row; SQLite raises IntegrityError when the primary
key ledger_id already exists.  On an exception the transaction rolls back,
so the state is returned unchanged. -/
def add_ledger (st : DB) (ledger_id : String) (now : Tm) (user_id : String)
    (ledger_name : Option String) : Except Err String × DB :=
  match st.users.find? (fun u => u.user_id == user_id) with
  | none => (.error .notFound, st)
  | some row =>
    let name :=
      match ledger_name with
      | none => defaultLedgerName row.user_name (fmtDate now)
      | some s => if s == "" || pyStrip s == "" then
          defaultLedgerName row.user_name (fmtDate now)
        else s
    if st.ledgers.any (fun r => r.ledger_id == ledger_id) then
      (.error .integrityViolation, st)
    else
      (.ok ledger_id,
        { st with ledgers := st.ledgers ++ [⟨ledger_id, user_id, name, fmtDateTime now⟩] })

/-- add_transaction (src/database.py lines 219-265).  Parameters beyond the
database state: the uuid7 result used as the new transaction id and the
current UTC date string from strftime("%Y-%m-%d", gmtime()).  Checks that
the ledger exists (OperationalError when not), defaults payment_time to the
current UTC date, inserts the transaction row (IntegrityError when the
payer foreign key is unsatisfied or the transaction_id primary key already
exists) and the payer's user_transactions link (IntegrityError when that
(user_id, transaction_id) primary key already exists) inside one
transaction: on any error the rollback leaves the state unchanged. -/
def add_transaction (st : DB) (tx_id now_date : String) (ledger_id payer_id : String)
    (price : Option ℚ) (description : Option String) (payment_time : Option String) :
    Except Err String × DB :=
  let pt := payment_time.getD now_date
  if !(st.ledgers.any (fun r => r.ledger_id == ledger_id)) then
    (.error .notFound, st)
  else if !(st.users.any (fun u => u.user_id == payer_id)) then
    (.error .integrityViolation, st)
  else if st.transactions.any (fun t => t.transaction_id == tx_id) then
    (.error .integrityViolation, st)
  else if st.user_transactions.any
      (fun ut => ut.user_id == payer_id && ut.transaction_id == tx_id) then
    (.error .integrityViolation, st)
  else
    (.ok tx_id,
      { st with
        transactions := st.transactions ++ [⟨tx_id, ledger_id, payer_id, price, description, pt⟩]
        user_transactions := st.user_transactions ++ [⟨payer_id, tx_id⟩] })

/-- Result record of get_user_info. -/
structure UserInfo where
  user_name : String
  ledgers : List LedgerInfo
deriving DecidableEq, Repr

/-- get_user_info (src/database.py lines 352-397): look up the user
(OperationalError when absent), take the union of the ledgers the user
created and the ledgers user_ledgers joins them to, and map
get_ledger_info over them in sorted order, silently skipping any id whose
ledger row no longer exists (the try/except around get_ledger_info). -/
def get_user_info (st : DB) (user_id : String) : Except Err UserInfo :=
  match st.users.find? (fun u => u.user_id == user_id) with
  | none => .error .notFound
  | some row =>
    let creator_ledgers := (st.ledgers.filter (fun r => r.creator_id == user_id)).map
      (fun r => r.ledger_id)
    let joined_ledgers := (st.user_ledgers.filter (fun ul => ul.user_id == user_id)).map
      (fun ul => ul.ledger_id)
    let all_ledgers := sortedUnique (creator_ledgers ++ joined_ledgers)
    .ok { user_name := row.user_name
          ledgers := all_ledgers.filterMap (fun lid => (get_ledger_info st lid).toOption) }

/-- register_user (src/database.py lines 153-164): insert a users row with
a fresh uuid7 id; IntegrityError when the generated id collides. -/
def register_user (st : DB) (user_id : String) (user_name hashed_password : String) :
    Except Err String × DB :=
  if st.users.any (fun u => u.user_id == user_id) then
    (.error .integrityViolation, st)
  else
    (.ok user_id, { st with users := st.users ++ [⟨user_id, user_name, hashed_password⟩] })

/-- The 64 most significant bits assembled by uuid7 (src/database.py lines
71-81), as a function of the millisecond timestamp ts_ms:
time_high = (ts_ms >> 28) & 0xFFFFFFFF, time_mid = (ts_ms >> 12) & 0xFFFF,
time_low = ts_ms & 0xFFF, msb = (time_high << 32) | (time_mid << 16) |
(0x7000 | time_low). -/
def uuid7msb (ts_ms : ℕ) : ℕ :=
  (((ts_ms >>> 28) &&& 0xFFFFFFFF) <<< 32) |||
    (((ts_ms >>> 12) &&& 0xFFFF) <<< 16) ||| (0x7000 ||| (ts_ms &&& 0xFFF))

/-- The 64 least significant bits assembled by uuid7 (line 82):
lsb = (rand_a << 48) | rand_b, where rand_a is 2 random bytes and rand_b
is 6 random bytes. -/
def uuid7lsb (rand_a rand_b : ℕ) : ℕ :=
  (rand_a <<< 48) ||| rand_b

/-- The 128-bit integer passed to uuid.UUID(int=...) (line 83):
(msb << 64) | lsb. -/
def uuid7int (ts_ms rand_a rand_b : ℕ) : ℕ :=
  (uuid7msb ts_ms <<< 64) ||| uuid7lsb rand_a rand_b

/-- Lower-case hexadecimal digit characters. -/
def hexChar (n : ℕ) : Char :=
  if n < 10 then Nat.digitChar n
  else if n = 10 then 'a' else if n = 11 then 'b' else if n = 12 then 'c'
  else if n = 13 then 'd' else if n = 14 then 'e' else 'f'

/-- Big-endian fixed-width base-16 digit list of n (most significant digit
first); digits beyond the width are discarded, matching a w-digit
zero-padded rendering of n < 16^w. -/
def hexBE : ℕ → ℕ → List Char
  | 0, _ => []
  | w + 1, n => hexChar (n / 16 ^ w) :: hexBE w (n % 16 ^ w)

/-- Canonical dashed textual UUID form produced by str(uuid.UUID(int=n)):
the 32 lower-case hex digits of the 128-bit value in groups of
8-4-4-4-12 separated by dashes. -/
def uuidChars (n : ℕ) : List Char :=
  hexBE 8 (n / 16 ^ 24) ++ '-' ::
    (hexBE 4 (n % 16 ^ 24 / 16 ^ 20) ++ '-' ::
      (hexBE 4 (n % 16 ^ 20 / 16 ^ 16) ++ '-' ::
        (hexBE 4 (n % 16 ^ 16 / 16 ^ 12) ++ '-' :: hexBE 12 (n % 16 ^ 12))))

/-- uuid7 (src/database.py lines 65-83) as a string, as a function of the
millisecond timestamp and the two urandom draws. -/
def uuid7str (ts_ms rand_a rand_b : ℕ) : String :=
  String.mk (uuidChars (uuid7int ts_ms rand_a rand_b))

/-! Helper lemmas about the string order used by sortedUnique. -/

/-- lexLeb agrees with lexicographic strict order-or-equality on char lists. -/
theorem lexLeb_iff : ∀ as bs : List Char,
    lexLeb as bs = true ↔ (List.Lex (· < ·) as bs ∨ as = bs)
  | [], [] => by simp [lexLeb]
  | [], b :: bs => by simp [lexLeb, List.Lex.nil]
  | a :: as, [] => by
    simp only [lexLeb, Bool.false_eq_true, false_iff]
    rintro (h | h) <;> cases h
  | a :: as, b :: bs => by
    simp only [lexLeb]
    split
    · rename_i hab
      simp only [true_iff]
      exact Or.inl (List.Lex.rel hab)
    · split
      · rename_i hab hba
        simp only [Bool.false_eq_true, false_iff]
        rintro (h | h)
        · cases h with
          | cons h => exact absurd hba (lt_irrefl a)
          | rel h => exact hab h
        · cases h
          exact hab hba
      · rename_i hab hba
        have hab' : a = b := le_antisymm (le_of_not_lt hba) (le_of_not_lt hab)
        subst hab'
        rw [lexLeb_iff as bs]
        constructor
        · rintro (h | h)
          · exact Or.inl (List.Lex.cons h)
          · exact Or.inr (by rw [h])
        · rintro (h | h)
          · cases h with
            | cons h => exact Or.inl h
            | rel h => exact absurd h (lt_irrefl a)
          · exact Or.inr (by injection h)

/-- strLeb agrees with the linear order on strings. -/
theorem strLeb_iff (a b : String) : strLeb a b = true ↔ a ≤ b := by
  have htl : a.toList = b.toList ↔ a = b := by
    constructor
    · intro h
      cases a; cases b; exact congrArg String.mk h
    · intro h; rw [h]
  rw [strLeb, lexLeb_iff, String.le_iff_toList_le, le_iff_lt_or_eq, htl]
  rfl

/-- The relation passed to insertionSort is total. -/
theorem strLebRel_total : ∀ a b : String, strLeb a b = true ∨ strLeb b a = true := by
  intro a b
  rcases le_total a b with h | h
  · exact Or.inl ((strLeb_iff a b).mpr h)
  · exact Or.inr ((strLeb_iff b a).mpr h)

/-- The relation passed to insertionSort is transitive. -/
theorem strLebRel_trans : ∀ a b c : String,
    strLeb a b = true → strLeb b c = true → strLeb a c = true := by
  intro a b c hab hbc
  exact (strLeb_iff a c).mpr (le_trans ((strLeb_iff a b).mp hab) ((strLeb_iff b c).mp hbc))

instance : IsTotal String (fun a b => strLeb a b = true) := ⟨strLebRel_total⟩

instance : IsTrans String (fun a b => strLeb a b = true) := ⟨strLebRel_trans⟩

/-- Membership in sortedUnique is membership in the underlying list. -/
theorem mem_sortedUnique {l : List String} {a : String} :
    a ∈ sortedUnique l ↔ a ∈ l := by
  rw [sortedUnique, List.mem_insertionSort, List.mem_dedup]

/-- sortedUnique yields no duplicates. -/
theorem nodup_sortedUnique (l : List String) : (sortedUnique l).Nodup :=
  (List.perm_insertionSort _ _).nodup_iff.mpr (List.nodup_dedup l)

/-- sortedUnique yields a strictly ascending list. -/
theorem sorted_lt_sortedUnique (l : List String) :
    List.Pairwise (· < ·) (sortedUnique l) := by
  have hle : List.Pairwise (· ≤ ·) (sortedUnique l) :=
    (List.sorted_insertionSort _ l.dedup).imp (fun h => (strLeb_iff _ _).mp h)
  exact List.Sorted.lt_of_le hle (nodup_sortedUnique l)

/-- Folding the SUM step and defaulting NULL to 0 gives the plain sum of
the values with NULL contributing zero. -/
theorem sqlSum_getD (l : List (Option ℚ)) :
    (sqlSum l).getD 0 = (l.map (fun x => x.getD 0)).sum := by
  suffices h : ∀ (acc : Option ℚ),
      (l.foldl (fun acc x =>
        match x with
        | none => acc
        | some v => some (acc.getD 0 + v)) acc).getD 0 =
      acc.getD 0 + (l.map (fun x => x.getD 0)).sum by
    simpa [sqlSum] using h none
  induction l with
  | nil => intro acc; simp
  | cons x xs ih =>
    intro acc
    cases x with
    | none => simp [List.foldl_cons, ih acc]
    | some v => simp [List.foldl_cons, ih (some (acc.getD 0 + v))]; ring

/-- C3: compute_expense returns the arithmetic sum of the price values of
the transactions of the given ledger, null prices contributing zero, and
returns zero when the ledger has no transactions. -/
theorem compute_expense_sum (st : DB) (ledger_id : String) :
    compute_expense st ledger_id =
      ((st.transactions.filter (fun t => t.ledger_id == ledger_id)).map
        (fun t => t.price.getD 0)).sum ∧
    (st.transactions.filter (fun t => t.ledger_id == ledger_id) = [] →
      compute_expense st ledger_id = 0) := by
  constructor
  · rw [compute_expense, sqlSum_getD, List.map_map]
    rfl
  · intro h
    rw [compute_expense, h]
    rfl

/-- Witness for compute_expense_sum at a concrete database. -/
theorem compute_expense_sum_witness :
    (DB.transactions ⟨[⟨"u1", "Alice", "h"⟩],
        [⟨"L1", "u1", "Book", "2025-01-01 00:00:00"⟩], [],
        [⟨"T1", "L1", "u1", some 5, none, "2025-01-02"⟩], [⟨"u1", "T1"⟩]⟩).filter
      (fun t => t.ledger_id == "L2") = [] ∧
    compute_expense ⟨[⟨"u1", "Alice", "h"⟩],
        [⟨"L1", "u1", "Book", "2025-01-01 00:00:00"⟩], [],
        [⟨"T1", "L1", "u1", some 5, none, "2025-01-02"⟩], [⟨"u1", "T1"⟩]⟩ "L2" = 0 :=
  ⟨by decide,
   (compute_expense_sum ⟨[⟨"u1", "Alice", "h"⟩],
        [⟨"L1", "u1", "Book", "2025-01-01 00:00:00"⟩], [],
        [⟨"T1", "L1", "u1", some 5, none, "2025-01-02"⟩], [⟨"u1", "T1"⟩]⟩ "L2").2 (by decide)⟩

/-- C9: login returns the first name-matching row's user id exactly when
that row's stored hash equals the supplied one; a missing name or a hash
mismatch on the first matching row both return None (the same
indistinguishable result, not an error). -/
theorem login_contract (st : DB) (user_name hashed_password : String) :
    (∀ uid, login st user_name hashed_password = some uid ↔
      ∃ row, st.users.find? (fun u => u.user_name == user_name) = some row ∧
        row.hashed_password = hashed_password ∧ row.user_id = uid) ∧
    (login st user_name hashed_password = none ↔
      (st.users.find? (fun u => u.user_name == user_name) = none ∨
       ∃ row, st.users.find? (fun u => u.user_name == user_name) = some row ∧
         row.hashed_password ≠ hashed_password)) := by
  cases hf : st.users.find? (fun u => u.user_name == user_name) with
  | none =>
    constructor
    · intro uid
      simp [login, hf]
    · simp [login, hf]
  | some row =>
    by_cases hh : row.hashed_password = hashed_password
    · constructor
      · intro uid
        simp only [login, hf]
        rw [if_pos (by exact beq_iff_eq.mpr hh)]
        constructor
        · intro h
          exact ⟨row, rfl, hh, by injection h⟩
        · rintro ⟨row', h1, h2, h3⟩
          injection h1 with h1
          rw [← h3, h1]
      · simp only [login, hf]
        rw [if_pos (by exact beq_iff_eq.mpr hh)]
        simp only [reduceCtorEq, false_iff]
        rintro (h | ⟨row', h1, h2⟩)
        · exact absurd h (by simp)
        · injection h1 with h1
          exact h2 (h1 ▸ hh)
    · constructor
      · intro uid
        simp only [login, hf]
        rw [if_neg (by simpa using hh)]
        simp only [reduceCtorEq, false_iff]
        rintro ⟨row', h1, h2, h3⟩
        injection h1 with h1
        exact hh (h1 ▸ h2)
      · simp only [login, hf]
        rw [if_neg (by simpa using hh)]
        simp only [true_iff]
        exact Or.inr ⟨row, rfl, hh⟩

/-- Witness for login_contract: a wrong hash against an existing name
yields None. -/
theorem login_contract_witness :
    login ⟨[⟨"u1", "Alice", "goodhash"⟩], [], [], [], []⟩ "Alice" "badhash" = none :=
  (login_contract ⟨[⟨"u1", "Alice", "goodhash"⟩], [], [], [], []⟩ "Alice" "badhash").2.mpr
    (Or.inr ⟨⟨"u1", "Alice", "goodhash"⟩, by decide, by decide⟩)

/-- C10: on a database whose transactions all reference existing ledgers
(the foreign-key invariant SQLite enforces), compute_expense applied to a
ledger id that does not exist in the ledgers table succeeds and returns 0,
the same value as for an existing ledger without transactions. -/
theorem compute_expense_absent_ledger (st : DB) (ledger_id : String)
    (hwf : ∀ t ∈ st.transactions, ∃ r ∈ st.ledgers, r.ledger_id = t.ledger_id)
    (habs : ∀ r ∈ st.ledgers, r.ledger_id ≠ ledger_id) :
    compute_expense st ledger_id = 0 := by
  have hfil : st.transactions.filter (fun t => t.ledger_id == ledger_id) = [] := by
    rw [List.filter_eq_nil_iff]
    intro t ht
    rcases hwf t ht with ⟨r, hr, hid⟩
    simp only [beq_iff_eq]
    intro he
    exact habs r hr (hid.trans he)
  rw [compute_expense, hfil]
  rfl

/-- Witness for compute_expense_absent_ledger at a concrete database. -/
theorem compute_expense_absent_ledger_witness :
    compute_expense ⟨[⟨"u1", "Alice", "h"⟩],
      [⟨"L1", "u1", "Book", "2025-01-01 00:00:00"⟩], [],
      [⟨"T1", "L1", "u1", some 5, none, "2025-01-02"⟩], [⟨"u1", "T1"⟩]⟩ "Lmissing" = 0 :=
  compute_expense_absent_ledger ⟨[⟨"u1", "Alice", "h"⟩],
      [⟨"L1", "u1", "Book", "2025-01-01 00:00:00"⟩], [],
      [⟨"T1", "L1", "u1", some 5, none, "2025-01-02"⟩], [⟨"u1", "T1"⟩]⟩ "Lmissing"
    (by decide) (by decide)

deriving instance DecidableEq for Except

/-- C8: link_user_to_ledger succeeds exactly when the pair is new and both
referenced entities exist, appending the one link row; every failure is an
integrity violation (duplicate pair or unsatisfied foreign key) that leaves
the state unchanged, and a second call with the same pair after a success
fails with an integrity violation without changing the state. -/
theorem link_user_to_ledger_contract (st : DB) (ledger_id user_id : String) :
    ((link_user_to_ledger st ledger_id user_id).1 = .ok () →
      ((∀ ul ∈ st.user_ledgers, ¬(ul.user_id = user_id ∧ ul.ledger_id = ledger_id)) ∧
       (∃ u ∈ st.users, u.user_id = user_id) ∧
       (∃ r ∈ st.ledgers, r.ledger_id = ledger_id) ∧
       (link_user_to_ledger st ledger_id user_id).2 =
         { st with user_ledgers := st.user_ledgers ++ [⟨user_id, ledger_id⟩] } ∧
       (link_user_to_ledger (link_user_to_ledger st ledger_id user_id).2
           ledger_id user_id).1 = .error .integrityViolation ∧
       (link_user_to_ledger (link_user_to_ledger st ledger_id user_id).2
           ledger_id user_id).2 = (link_user_to_ledger st ledger_id user_id).2)) ∧
    (∀ e, (link_user_to_ledger st ledger_id user_id).1 = .error e →
      (e = .integrityViolation ∧
       (link_user_to_ledger st ledger_id user_id).2 = st ∧
       ((∃ ul ∈ st.user_ledgers, ul.user_id = user_id ∧ ul.ledger_id = ledger_id) ∨
        (∀ u ∈ st.users, u.user_id ≠ user_id) ∨
        (∀ r ∈ st.ledgers, r.ledger_id ≠ ledger_id)))) := by
  by_cases hdup : st.user_ledgers.any
      (fun ul => ul.user_id == user_id && ul.ledger_id == ledger_id) = true
  · rw [link_user_to_ledger] at *
    rw [if_pos hdup]
    constructor
    · intro h; cases h
    · intro e he
      injection he with he
      refine ⟨he.symm, rfl, Or.inl ?_⟩
      rcases List.any_eq_true.mp hdup with ⟨ul, hul, hp⟩
      rw [Bool.and_eq_true] at hp
      exact ⟨ul, hul, beq_iff_eq.mp hp.1, beq_iff_eq.mp hp.2⟩
  · by_cases huser : st.users.any (fun u => u.user_id == user_id) = true
    · by_cases hledg : st.ledgers.any (fun r => r.ledger_id == ledger_id) = true
      · have hres : link_user_to_ledger st ledger_id user_id =
            (.ok (), { st with user_ledgers := st.user_ledgers ++ [⟨user_id, ledger_id⟩] }) := by
          rw [link_user_to_ledger, if_neg hdup, if_neg (by simp [huser]),
            if_neg (by simp [hledg])]
        constructor
        · intro _
          refine ⟨?_, ?_, ?_, by rw [hres], ?_, ?_⟩
          · intro ul hul hcon
            exact hdup (List.any_eq_true.mpr
              ⟨ul, hul, by simp [hcon.1, hcon.2]⟩)
          · rcases List.any_eq_true.mp huser with ⟨u, hu, hp⟩
            exact ⟨u, hu, beq_iff_eq.mp hp⟩
          · rcases List.any_eq_true.mp hledg with ⟨r, hr, hp⟩
            exact ⟨r, hr, beq_iff_eq.mp hp⟩
          · rw [hres]
            rw [link_user_to_ledger, if_pos (by simp)]
          · rw [hres]
            rw [link_user_to_ledger, if_pos (by simp)]
        · intro e he
          rw [hres] at he
          cases he
      · have hres : link_user_to_ledger st ledger_id user_id = (.error .integrityViolation, st) := by
          rw [link_user_to_ledger, if_neg hdup, if_neg (by simp [huser]), if_pos (by simp [hledg])]
        constructor
        · intro h; rw [hres] at h; cases h
        · intro e he
          rw [hres] at he
          injection he with he
          refine ⟨he.symm, by rw [hres], Or.inr (Or.inr ?_)⟩
          intro r hr
          have := fun hp => hledg (List.any_eq_true.mpr ⟨r, hr, hp⟩)
          simpa using this
    · have hres : link_user_to_ledger st ledger_id user_id = (.error .integrityViolation, st) := by
        rw [link_user_to_ledger, if_neg hdup, if_pos (by simp [huser])]
      constructor
      · intro h; rw [hres] at h; cases h
      · intro e he
        rw [hres] at he
        injection he with he
        refine ⟨he.symm, by rw [hres], Or.inr (Or.inl ?_)⟩
        intro u hu
        have := fun hp => huser (List.any_eq_true.mpr ⟨u, hu, hp⟩)
        simpa using this

/-- Witness for link_user_to_ledger_contract: linking a nonexistent user
fails with an integrity violation and leaves the state unchanged. -/
theorem link_user_to_ledger_contract_witness :
    Err.integrityViolation = Err.integrityViolation ∧
    (link_user_to_ledger ⟨[⟨"u1", "Alice", "h"⟩],
        [⟨"L1", "u1", "Book", "2025-01-01 00:00:00"⟩], [], [], []⟩ "L1" "ghost").2 =
      ⟨[⟨"u1", "Alice", "h"⟩], [⟨"L1", "u1", "Book", "2025-01-01 00:00:00"⟩], [], [], []⟩ ∧
    ((∃ ul ∈ (DB.user_ledgers ⟨[⟨"u1", "Alice", "h"⟩],
        [⟨"L1", "u1", "Book", "2025-01-01 00:00:00"⟩], [], [], []⟩),
        ul.user_id = "ghost" ∧ ul.ledger_id = "L1") ∨
     (∀ u ∈ (DB.users ⟨[⟨"u1", "Alice", "h"⟩],
        [⟨"L1", "u1", "Book", "2025-01-01 00:00:00"⟩], [], [], []⟩), u.user_id ≠ "ghost") ∨
     (∀ r ∈ (DB.ledgers ⟨[⟨"u1", "Alice", "h"⟩],
        [⟨"L1", "u1", "Book", "2025-01-01 00:00:00"⟩], [], [], []⟩), r.ledger_id ≠ "L1")) :=
  (link_user_to_ledger_contract ⟨[⟨"u1", "Alice", "h"⟩],
      [⟨"L1", "u1", "Book", "2025-01-01 00:00:00"⟩], [], [], []⟩ "L1" "ghost").2
    Err.integrityViolation (by decide)

/-- A decimal digit character rendered from a mod-10 value is a digit. -/
theorem digitChar_mod_isDigit (n : ℕ) : (Nat.digitChar (n % 10)).isDigit = true := by
  have h : n % 10 < 10 := Nat.mod_lt _ (by omega)
  set k := n % 10 with hk
  clear_value k
  interval_cases k <;> decide

/-- The strftime("%Y-%m-%d %H:%M:%S") rendering always has the
"YYYY-MM-DD HH:MM:SS" shape: 19 characters, digits everywhere except the
dashes, the space and the colons. -/
theorem fmtDateTime_shape (t : Tm) : isDateTimeShape (fmtDateTime t) = true := by
  show isDateTimeShape (String.mk _) = true
  rw [isDateTimeShape]
  show (match pad4 t.year ++ '-' :: pad2 t.month ++ '-' :: pad2 t.day ++
      ' ' :: pad2 t.hour ++ ':' :: pad2 t.minute ++ ':' :: pad2 t.second with
    | [y1, y2, y3, y4, c1, m1, m2, c2, d1, d2, c3, h1, h2, c4, n1, n2, c5, s1, s2] =>
      y1.isDigit && y2.isDigit && y3.isDigit && y4.isDigit && c1 == '-' &&
      m1.isDigit && m2.isDigit && c2 == '-' && d1.isDigit && d2.isDigit &&
      c3 == ' ' && h1.isDigit && h2.isDigit && c4 == ':' && n1.isDigit &&
      n2.isDigit && c5 == ':' && s1.isDigit && s2.isDigit
    | _ => false) = true
  simp only [pad4, pad2, List.cons_append, List.nil_append]
  simp [digitChar_mod_isDigit]

/-- C6: add_ledger fails with a not-found error and changes nothing when
the creator id does not exist; otherwise (with the generated ledger id
fresh) a missing, empty or whitespace-only name is replaced by the default
name synthesized from the creator's display name and the current UTC date,
the stored creation timestamp is strftime("%Y-%m-%d %H:%M:%S") of the
current UTC time (always of the "YYYY-MM-DD HH:MM:SS" shape), and exactly
one ledger row is inserted; every erroring call leaves the state
unchanged. -/
theorem add_ledger_default_name (st : DB) (ledger_id : String) (now : Tm)
    (user_id : String) (ledger_name : Option String) :
    (st.users.find? (fun u => u.user_id == user_id) = none →
      add_ledger st ledger_id now user_id ledger_name = (.error .notFound, st)) ∧
    (∀ row, st.users.find? (fun u => u.user_id == user_id) = some row →
      (∀ r ∈ st.ledgers, r.ledger_id ≠ ledger_id) →
      (ledger_name = none ∨ ∃ s, ledger_name = some s ∧ pyStrip s = "") →
      add_ledger st ledger_id now user_id ledger_name =
        (.ok ledger_id,
         { st with ledgers := st.ledgers ++
            [⟨ledger_id, user_id, defaultLedgerName row.user_name (fmtDate now),
              fmtDateTime now⟩] })) ∧
    isDateTimeShape (fmtDateTime now) = true ∧
    (∀ e, (add_ledger st ledger_id now user_id ledger_name).1 = .error e →
      (add_ledger st ledger_id now user_id ledger_name).2 = st) := by
  refine ⟨?_, ?_, fmtDateTime_shape now, ?_⟩
  · intro h
    rw [add_ledger, h]
  · intro row hrow hfresh hname
    have hany : st.ledgers.any (fun r => r.ledger_id == ledger_id) = false := by
      rw [List.any_eq_false]
      intro r hr
      simpa using hfresh r hr
    rw [add_ledger, hrow]
    simp only [hany, Bool.false_eq_true, if_false]
    rcases hname with h | ⟨s, hs, hstrip⟩
    · rw [h]
    · rw [hs]
      have hcond : (s == "" || pyStrip s == "") = true := by
        simp [hstrip]
      simp [hcond]
  · intro e he
    rw [add_ledger] at he ⊢
    cases hrow : st.users.find? (fun u => u.user_id == user_id) with
    | none => rfl
    | some row =>
      rw [hrow] at he
      dsimp only at he ⊢
      by_cases hany : (st.ledgers.any fun r => r.ledger_id == ledger_id) = true
      · rw [if_pos hany]
      · rw [if_neg hany] at he
        simp at he

/-- Witness for add_ledger_default_name: creating a ledger with no name for
an existing user stores the synthesized default name and the formatted
timestamp. -/
theorem add_ledger_default_name_witness :
    add_ledger ⟨[⟨"u1", "Alice", "h"⟩], [], [], [], []⟩ "L1" ⟨2025, 9, 30, 7, 8, 9⟩
        "u1" none =
      (.ok "L1",
       ⟨[⟨"u1", "Alice", "h"⟩],
        [⟨"L1", "u1", defaultLedgerName "Alice" (fmtDate ⟨2025, 9, 30, 7, 8, 9⟩),
          fmtDateTime ⟨2025, 9, 30, 7, 8, 9⟩⟩], [], [], []⟩) :=
  (add_ledger_default_name ⟨[⟨"u1", "Alice", "h"⟩], [], [], [], []⟩ "L1"
      ⟨2025, 9, 30, 7, 8, 9⟩ "u1" none).2.1 ⟨"u1", "Alice", "h"⟩
    (by decide) (by decide) (Or.inl rfl)

/-- C1 (amended): add_transaction fails with a not-found error and changes
nothing when the ledger id does not exist; when the ledger exists, the
payer exists (the referential constraint SQLite enforces) and the generated
transaction id is unused, it succeeds, inserting exactly one transaction
row — with payment_time defaulted to the current UTC date when none is
supplied — and exactly one user_transactions link for the payer in one
atomic step; every erroring call leaves the state unchanged, so either both
rows exist afterwards or neither does. -/
theorem add_transaction_atomic (st : DB) (tx_id now_date ledger_id payer_id : String)
    (price : Option ℚ) (description : Option String) (payment_time : Option String) :
    ((∀ r ∈ st.ledgers, r.ledger_id ≠ ledger_id) →
      add_transaction st tx_id now_date ledger_id payer_id price description payment_time =
        (.error .notFound, st)) ∧
    ((∃ r ∈ st.ledgers, r.ledger_id = ledger_id) →
     (∃ u ∈ st.users, u.user_id = payer_id) →
     (∀ t ∈ st.transactions, t.transaction_id ≠ tx_id) →
     (∀ ut ∈ st.user_transactions, ¬(ut.user_id = payer_id ∧ ut.transaction_id = tx_id)) →
      add_transaction st tx_id now_date ledger_id payer_id price description payment_time =
        (.ok tx_id,
         { st with
           transactions := st.transactions ++
             [⟨tx_id, ledger_id, payer_id, price, description, payment_time.getD now_date⟩]
           user_transactions := st.user_transactions ++ [⟨payer_id, tx_id⟩] })) ∧
    (∀ e, (add_transaction st tx_id now_date ledger_id payer_id price description
        payment_time).1 = .error e →
      (add_transaction st tx_id now_date ledger_id payer_id price description
        payment_time).2 = st) := by
  refine ⟨?_, ?_, ?_⟩
  · intro h
    have hany : st.ledgers.any (fun r => r.ledger_id == ledger_id) = false := by
      rw [List.any_eq_false]
      intro r hr
      simpa using h r hr
    rw [add_transaction]
    simp [hany]
  · rintro ⟨r, hr, hrid⟩ ⟨u, hu, huid⟩ hfresh hpfresh
    have h1 : st.ledgers.any (fun x => x.ledger_id == ledger_id) = true :=
      List.any_eq_true.mpr ⟨r, hr, by simp [hrid]⟩
    have h2 : st.users.any (fun x => x.user_id == payer_id) = true :=
      List.any_eq_true.mpr ⟨u, hu, by simp [huid]⟩
    have h3 : st.transactions.any (fun t => t.transaction_id == tx_id) = false := by
      rw [List.any_eq_false]
      intro t ht
      simpa using hfresh t ht
    have h4 : st.user_transactions.any
        (fun ut => ut.user_id == payer_id && ut.transaction_id == tx_id) = false := by
      rw [List.any_eq_false]
      intro ut hut
      have := hpfresh ut hut
      simp only [Bool.and_eq_true, beq_iff_eq]
      intro hc
      exact this hc
    rw [add_transaction]
    simp [h1, h2, h3, h4]
  · intro e he
    rw [add_transaction] at he ⊢
    by_cases h1 : st.ledgers.any (fun r => r.ledger_id == ledger_id) = true
    · simp only [h1, Bool.not_true, Bool.false_eq_true, if_false] at he ⊢
      by_cases h2 : st.users.any (fun u => u.user_id == payer_id) = true
      · simp only [h2, Bool.not_true, Bool.false_eq_true, if_false] at he ⊢
        by_cases h3 : st.transactions.any (fun t => t.transaction_id == tx_id) = true
        · simp only [h3, if_true]
        · simp only [h3, Bool.false_eq_true, if_false] at he ⊢
          by_cases h4 : st.user_transactions.any
              (fun ut => ut.user_id == payer_id && ut.transaction_id == tx_id) = true
          · simp only [h4, if_true]
          · simp only [h4, Bool.false_eq_true, if_false] at he
            simp at he
      · simp only [Bool.not_eq_true] at h2
        simp only [h2, Bool.not_false, if_true]
    · simp only [Bool.not_eq_true] at h1
      simp only [h1, Bool.not_false, if_true]

/-- Counterexample to C1 as stated: with an existing ledger but a
nonexistent payer, add_transaction raises an integrity error and inserts
nothing, instead of inserting a transaction row. -/
theorem add_transaction_missing_payer_cex :
    (∃ r ∈ (DB.ledgers ⟨[⟨"u1", "Alice", "h"⟩],
        [⟨"L1", "u1", "Book", "2025-01-01 00:00:00"⟩], [], [], []⟩),
      r.ledger_id = "L1") ∧
    add_transaction ⟨[⟨"u1", "Alice", "h"⟩],
        [⟨"L1", "u1", "Book", "2025-01-01 00:00:00"⟩], [], [], []⟩
        "T1" "2025-02-03" "L1" "ghost" (some 5) none none =
      (.error .integrityViolation,
       ⟨[⟨"u1", "Alice", "h"⟩], [⟨"L1", "u1", "Book", "2025-01-01 00:00:00"⟩],
        [], [], []⟩) := by
  constructor
  · exact ⟨⟨"L1", "u1", "Book", "2025-01-01 00:00:00"⟩, by decide, rfl⟩
  · decide

/-- Witness for add_transaction_atomic: recording a transaction with no
payment date inserts the row with the current UTC date and the payer's
participant link. -/
theorem add_transaction_atomic_witness :
    add_transaction ⟨[⟨"u1", "Alice", "h"⟩],
        [⟨"L1", "u1", "Book", "2025-01-01 00:00:00"⟩], [], [], []⟩
        "T1" "2025-02-03" "L1" "u1" (some 5) none none =
      (.ok "T1",
       ⟨[⟨"u1", "Alice", "h"⟩], [⟨"L1", "u1", "Book", "2025-01-01 00:00:00"⟩], [],
        [⟨"T1", "L1", "u1", some 5, none, "2025-02-03"⟩], [⟨"u1", "T1"⟩]⟩) :=
  (add_transaction_atomic ⟨[⟨"u1", "Alice", "h"⟩],
      [⟨"L1", "u1", "Book", "2025-01-01 00:00:00"⟩], [], [], []⟩
      "T1" "2025-02-03" "L1" "u1" (some 5) none none).2.1
    ⟨⟨"L1", "u1", "Book", "2025-01-01 00:00:00"⟩, by decide, rfl⟩
    ⟨⟨"u1", "Alice", "h"⟩, by decide, rfl⟩ (by decide) (by decide)

/-- Reading a defaulted element of a take at an index below the cut gives
the element of the original list. -/
theorem getD_take_of_lt (l : List Char) (n m : ℕ) (d : Char) (h : m < n) :
    (l.take n).getD m d = l.getD m d := by
  rw [List.getD, List.getD, List.get?_eq_getElem?, List.get?_eq_getElem?,
    List.getElem?_take_of_lt h]

/-- Counterexample to C2 as stated: a stored timestamp with a leading space
has no dash at position 5 of its first 7 characters (so the claimed
rendering rule demands ""), yet get_ledger_info strips the value first and
renders "09-25". -/
theorem get_ledger_info_strip_cex :
    (" 2025-09-01 00:00:00".toList.take 7).getD 4 ' ' ≠ '-' ∧
    get_ledger_info ⟨[⟨"u1", "Alice", "h"⟩],
        [⟨"L", "u1", "Book", " 2025-09-01 00:00:00"⟩], [], [], []⟩ "L" =
      .ok ⟨"Book", ["u1"], "09-25"⟩ := by
  constructor
  · decide
  · decide

/-- C2 (amended): for an existing ledger, get_ledger_info returns the
stored name, the strictly sorted duplicate-free participant list whose
members are exactly the explicitly linked users together with the creator,
and the creation month "MM-YY" computed from the first 7 characters of the
whitespace-stripped stored timestamp when that prefix has length 7 with a
dash at index 4, and "" (not a failure) otherwise; for an absent ledger id
it fails with a not-found error. -/
theorem get_ledger_info_summary (st : DB) (ledger_id : String) :
    (st.ledgers.find? (fun r => r.ledger_id == ledger_id) = none →
      get_ledger_info st ledger_id = .error .notFound) ∧
    (∀ row, st.ledgers.find? (fun r => r.ledger_id == ledger_id) = some row →
      ∃ info, get_ledger_info st ledger_id = .ok info ∧
        info.ledger_name = row.ledger_name ∧
        List.Pairwise (· < ·) info.involved_user ∧
        (∀ u, u ∈ info.involved_user ↔
          (u = row.creator_id ∨
           ∃ ul ∈ st.user_ledgers, ul.user_id = u ∧ ul.ledger_id = ledger_id)) ∧
        (let s := pyStripList row.create_time.toList
         (7 ≤ s.length ∧ s.getD 4 ' ' = '-' →
            info.created_date =
              String.mk ((s.take 7).drop 5) ++ "-" ++
                String.mk (((s.take 7).take 4).drop 2)) ∧
         (¬(7 ≤ s.length ∧ s.getD 4 ' ' = '-') → info.created_date = ""))) := by
  constructor
  · intro h
    rw [get_ledger_info, h]
  · intro row hrow
    refine ⟨_, by rw [get_ledger_info, hrow], rfl, sorted_lt_sortedUnique _, ?_, ?_, ?_⟩
    · intro u
      rw [mem_sortedUnique, List.mem_append]
      simp only [List.mem_singleton, List.mem_map, List.mem_filter, beq_iff_eq]
      constructor
      · rintro (⟨ul, ⟨hul, hid⟩, huid⟩ | h)
        · exact Or.inr ⟨ul, hul, huid, hid⟩
        · exact Or.inl h
      · rintro (h | ⟨ul, hul, huid, hid⟩)
        · exact Or.inr h
        · exact Or.inl ⟨ul, ⟨hul, hid⟩, huid⟩
    · rintro ⟨hlen, hdash⟩
      show createdDate row.create_time = _
      rw [createdDate]
      have htake : (if 7 ≤ (pyStripList row.create_time.toList).length
          then (pyStripList row.create_time.toList).take 7 else []) =
          (pyStripList row.create_time.toList).take 7 := if_pos hlen
      have hcc : ((pyStripList row.create_time.toList).take 7).length = 7 ∧
          ((pyStripList row.create_time.toList).take 7).getD 4 ' ' = '-' := by
        refine ⟨by rw [List.length_take]; omega, ?_⟩
        rw [getD_take_of_lt _ _ _ _ (by omega)]
        exact hdash
      simp only [ge_iff_le, htake]
      rw [if_pos hcc]
    · intro hneg
      show createdDate row.create_time = _
      rw [createdDate]
      by_cases hlen : 7 ≤ (pyStripList row.create_time.toList).length
      · have hdash : ¬(pyStripList row.create_time.toList).getD 4 ' ' = '-' := by
          intro h
          exact hneg ⟨hlen, h⟩
        have hcc : ¬(((pyStripList row.create_time.toList).take 7).length = 7 ∧
            ((pyStripList row.create_time.toList).take 7).getD 4 ' ' = '-') := by
          rintro ⟨h1, h2⟩
          rw [getD_take_of_lt _ _ _ _ (by omega)] at h2
          exact hdash h2
        simp only [ge_iff_le, if_pos hlen]
        rw [if_neg hcc]
      · have hcc : ¬((([] : List Char).length = 7 ∧
            ([] : List Char).getD 4 ' ' = '-')) := by
          rintro ⟨h1, h2⟩
          simp at h1
        simp only [ge_iff_le, if_neg hlen]
        rw [if_neg hcc]

/-- Witness for get_ledger_info_summary at a concrete database: the
participants are the creator plus the linked users, sorted. -/
theorem get_ledger_info_summary_witness :
    List.find? (fun r => r.ledger_id == "L")
      (DB.ledgers ⟨[⟨"u1", "Alice", "h"⟩],
        [⟨"L", "u1", "Book", "2025-09-01 00:00:00"⟩],
        [⟨"u2", "L"⟩], [], []⟩) =
      some ⟨"L", "u1", "Book", "2025-09-01 00:00:00"⟩ ∧
    (∃ info, get_ledger_info ⟨[⟨"u1", "Alice", "h"⟩],
        [⟨"L", "u1", "Book", "2025-09-01 00:00:00"⟩],
        [⟨"u2", "L"⟩], [], []⟩ "L" = .ok info ∧
      info.ledger_name = "Book" ∧
      List.Pairwise (· < ·) info.involved_user ∧
      (∀ u, u ∈ info.involved_user ↔
        (u = "u1" ∨
         ∃ ul ∈ (DB.user_ledgers ⟨[⟨"u1", "Alice", "h"⟩],
            [⟨"L", "u1", "Book", "2025-09-01 00:00:00"⟩],
            [⟨"u2", "L"⟩], [], []⟩), ul.user_id = u ∧ ul.ledger_id = "L")) ∧
      (let s := pyStripList ("2025-09-01 00:00:00" : String).toList
       (7 ≤ s.length ∧ s.getD 4 ' ' = '-' →
          info.created_date =
            String.mk ((s.take 7).drop 5) ++ "-" ++
              String.mk (((s.take 7).take 4).drop 2)) ∧
       (¬(7 ≤ s.length ∧ s.getD 4 ' ' = '-') → info.created_date = ""))) :=
  ⟨by decide,
   (get_ledger_info_summary ⟨[⟨"u1", "Alice", "h"⟩],
      [⟨"L", "u1", "Book", "2025-09-01 00:00:00"⟩],
      [⟨"u2", "L"⟩], [], []⟩ "L").2 ⟨"L", "u1", "Book", "2025-09-01 00:00:00"⟩ (by decide)⟩

/-- Mapping a fallible query over a list and keeping the successes pairs
each kept input with its result: the outputs correspond, in order, to the
inputs on which the query succeeds. -/
theorem forall2_filterMap_toOption (f : String → Except Err LedgerInfo) (l : List String) :
    List.Forall₂ (fun a b => f a = .ok b)
      (l.filter (fun a => (f a).toOption.isSome))
      (l.filterMap (fun a => (f a).toOption)) := by
  induction l with
  | nil => exact List.Forall₂.nil
  | cons a l ih =>
    cases hf : f a with
    | error e =>
      simpa [List.filter_cons, List.filterMap_cons, hf, Except.toOption] using ih
    | ok b =>
      have h2 : List.Forall₂ (fun a b => f a = Except.ok b)
          (a :: List.filter (fun x => (f x).toOption.isSome) l)
          (b :: List.filterMap (fun x => (f x).toOption) l) := List.Forall₂.cons hf ih
      simpa [List.filter_cons, List.filterMap_cons, hf, Except.toOption] using h2

/-- get_ledger_info succeeds exactly on the ledger ids present in the
ledgers table. -/
theorem get_ledger_info_isSome (st : DB) (l : String) :
    (get_ledger_info st l).toOption.isSome = true ↔ ∃ r ∈ st.ledgers, r.ledger_id = l := by
  cases hf : st.ledgers.find? (fun r => r.ledger_id == l) with
  | none =>
    rw [get_ledger_info, hf]
    simp only [Except.toOption, Option.isSome_none, Bool.false_eq_true, false_iff]
    rintro ⟨r, hr, hid⟩
    have := List.find?_eq_none.mp hf r hr
    simp [hid] at this
  | some row =>
    rw [get_ledger_info, hf]
    simp only [Except.toOption, Option.isSome_some, true_iff]
    exact ⟨row, List.mem_of_find?_eq_some hf, by simpa using List.find?_some hf⟩

/-- C7: get_user_info fails with a not-found error for an absent user;
for an existing user it returns the display name together with one ledger
summary per existing ledger the user created or is linked to, produced by
the ledger-summary query and ordered by strictly ascending ledger id, with
ids whose ledger row no longer exists silently omitted; a user with no
created or joined ledgers gets an empty list. -/
theorem get_user_info_summary (st : DB) (user_id : String) :
    (st.users.find? (fun u => u.user_id == user_id) = none →
      get_user_info st user_id = .error .notFound) ∧
    (∀ row, st.users.find? (fun u => u.user_id == user_id) = some row →
      ∃ info ids, get_user_info st user_id = .ok info ∧
        info.user_name = row.user_name ∧
        List.Pairwise (· < ·) ids ∧
        (∀ l, l ∈ ids ↔
          (((∃ r ∈ st.ledgers, r.creator_id = user_id ∧ r.ledger_id = l) ∨
            (∃ ul ∈ st.user_ledgers, ul.user_id = user_id ∧ ul.ledger_id = l)) ∧
           (∃ r ∈ st.ledgers, r.ledger_id = l))) ∧
        List.Forall₂ (fun l i => get_ledger_info st l = .ok i) ids info.ledgers ∧
        (st.ledgers.filter (fun r => r.creator_id == user_id) = [] →
         st.user_ledgers.filter (fun ul => ul.user_id == user_id) = [] →
         info.ledgers = [])) := by
  constructor
  · intro h
    rw [get_user_info, h]
  · intro row hrow
    refine ⟨_,
      (sortedUnique (((st.ledgers.filter (fun r => r.creator_id == user_id)).map
          (fun r => r.ledger_id)) ++
        ((st.user_ledgers.filter (fun ul => ul.user_id == user_id)).map
          (fun ul => ul.ledger_id)))).filter
        (fun a => (get_ledger_info st a).toOption.isSome),
      by rw [get_user_info, hrow], rfl,
      (sorted_lt_sortedUnique _).sublist (List.filter_sublist _), ?_, ?_, ?_⟩
    · intro l
      rw [List.mem_filter, mem_sortedUnique, List.mem_append, get_ledger_info_isSome]
      simp only [List.mem_map, List.mem_filter, beq_iff_eq]
      constructor
      · rintro ⟨h1 | h1, h2⟩
        · rcases h1 with ⟨r, ⟨hr, hc⟩, hid⟩
          exact ⟨Or.inl ⟨r, hr, hc, hid⟩, h2⟩
        · rcases h1 with ⟨ul, ⟨hul, hc⟩, hid⟩
          exact ⟨Or.inr ⟨ul, hul, hc, hid⟩, h2⟩
      · rintro ⟨h1 | h1, h2⟩
        · rcases h1 with ⟨r, hr, hc, hid⟩
          exact ⟨Or.inl ⟨r, ⟨hr, hc⟩, hid⟩, h2⟩
        · rcases h1 with ⟨ul, hul, hc, hid⟩
          exact ⟨Or.inr ⟨ul, ⟨hul, hc⟩, hid⟩, h2⟩
    · exact forall2_filterMap_toOption _ _
    · intro h1 h2
      show (sortedUnique _).filterMap _ = []
      rw [h1, h2]
      rfl

/-- Witness for get_user_info_summary: a user with one created ledger and
one dangling link gets exactly the existing ledger's summary. -/
theorem get_user_info_summary_witness :
    List.find? (fun u => u.user_id == "u1")
      (DB.users ⟨[⟨"u1", "Alice", "h"⟩],
        [⟨"L1", "u1", "Book", "2025-09-01 00:00:00"⟩],
        [⟨"u1", "Lgone"⟩], [], []⟩) = some ⟨"u1", "Alice", "h"⟩ ∧
    (∃ info ids, get_user_info ⟨[⟨"u1", "Alice", "h"⟩],
        [⟨"L1", "u1", "Book", "2025-09-01 00:00:00"⟩],
        [⟨"u1", "Lgone"⟩], [], []⟩ "u1" = .ok info ∧
      info.user_name = "Alice" ∧
      List.Pairwise (· < ·) ids ∧
      (∀ l, l ∈ ids ↔
        (((∃ r ∈ (DB.ledgers ⟨[⟨"u1", "Alice", "h"⟩],
              [⟨"L1", "u1", "Book", "2025-09-01 00:00:00"⟩],
              [⟨"u1", "Lgone"⟩], [], []⟩), r.creator_id = "u1" ∧ r.ledger_id = l) ∨
          (∃ ul ∈ (DB.user_ledgers ⟨[⟨"u1", "Alice", "h"⟩],
              [⟨"L1", "u1", "Book", "2025-09-01 00:00:00"⟩],
              [⟨"u1", "Lgone"⟩], [], []⟩), ul.user_id = "u1" ∧ ul.ledger_id = l)) ∧
         (∃ r ∈ (DB.ledgers ⟨[⟨"u1", "Alice", "h"⟩],
              [⟨"L1", "u1", "Book", "2025-09-01 00:00:00"⟩],
              [⟨"u1", "Lgone"⟩], [], []⟩), r.ledger_id = l))) ∧
      List.Forall₂ (fun l i => get_ledger_info ⟨[⟨"u1", "Alice", "h"⟩],
          [⟨"L1", "u1", "Book", "2025-09-01 00:00:00"⟩],
          [⟨"u1", "Lgone"⟩], [], []⟩ l = .ok i) ids info.ledgers ∧
      ((DB.ledgers ⟨[⟨"u1", "Alice", "h"⟩],
          [⟨"L1", "u1", "Book", "2025-09-01 00:00:00"⟩],
          [⟨"u1", "Lgone"⟩], [], []⟩).filter (fun r => r.creator_id == "u1") = [] →
       (DB.user_ledgers ⟨[⟨"u1", "Alice", "h"⟩],
          [⟨"L1", "u1", "Book", "2025-09-01 00:00:00"⟩],
          [⟨"u1", "Lgone"⟩], [], []⟩).filter (fun ul => ul.user_id == "u1") = [] →
       info.ledgers = [])) :=
  ⟨by decide,
   (get_user_info_summary ⟨[⟨"u1", "Alice", "h"⟩],
      [⟨"L1", "u1", "Book", "2025-09-01 00:00:00"⟩],
      [⟨"u1", "Lgone"⟩], [], []⟩ "u1").2 ⟨"u1", "Alice", "h"⟩ (by decide)⟩

/-- C4: evaluation of the uuid7 assembly at the concrete millisecond
timestamp 1700000000000.  The high 48 bits hold ts_ms >> 12 (the claim
says they encode ts_ms itself, and 1700000000000 fits in 48 bits, so they
would have to equal it); the 12 bits directly after the 4-bit version
marker hold the low 12 timestamp bits for every choice of the random
bytes (the claim says random bytes follow the version/variant bits
immediately); and the two bits where the RFC variant would live follow the
random draw instead of being fixed. -/
theorem uuid7_layout_bug :
    uuid7int 1700000000000 0 0 >>> 80 = 1700000000000 / 4096 ∧
    1700000000000 / 4096 ≠ 1700000000000 % 2 ^ 48 ∧
    (uuid7int 1700000000000 0 0 >>> 76) &&& 0xF = 7 ∧
    (uuid7int 1700000000000 0 0 >>> 64) &&& 0xFFF = 1700000000000 % 4096 ∧
    (uuid7int 1700000000000 0xFFFF 0xFFFFFFFFFFFF >>> 64) &&& 0xFFF =
      1700000000000 % 4096 ∧
    (uuid7int 1700000000000 0 0 >>> 62) &&& 3 = 0 ∧
    (uuid7int 1700000000000 0xFFFF 0xFFFFFFFFFFFF >>> 62) &&& 3 = 3 := by
  decide

/-- A shifted value or-ed with a remainder below the shift width is their
sum (the or of values with disjoint bit ranges adds them). -/
theorem shiftLeft_lor_eq_add {k : ℕ} (a : ℕ) {b : ℕ} (h : b < 2 ^ k) :
    (a <<< k) ||| b = a <<< k + b := by
  induction k generalizing a b with
  | zero => interval_cases b <;> simp
  | succ k ih =>
    have hb2 : b / 2 < 2 ^ k := by omega
    have hdecomp : b = Nat.bit (decide (b % 2 = 1)) (b / 2) := by
      rcases Nat.mod_two_eq_zero_or_one b with h2 | h2 <;>
        simp [Nat.bit, h2, cond_false, cond_true] <;> omega
    have hsl : a <<< (k + 1) = Nat.bit false (a <<< k) := by
      simp only [Nat.bit, cond_false, Nat.shiftLeft_eq]
      ring
    rw [hsl, hdecomp, Nat.lor_bit, ih _ hb2]
    rcases Nat.mod_two_eq_zero_or_one b with h2 | h2 <;>
      simp [Nat.bit, h2, cond_false, cond_true, Nat.shiftLeft_eq] <;> ring_nf

/-- Arithmetic form of the 64 high bits assembled by uuid7: for timestamps
below 2^60 (the mask (ts >> 28) & 0xFFFFFFFF then discards nothing) the
value is (ts_ms >> 12) in the top 48 bits, the version nibble 7, and the
low 12 timestamp bits. -/
theorem uuid7msb_eq {t : ℕ} (h : t < 2 ^ 60) :
    uuid7msb t = t / 2 ^ 12 * 2 ^ 16 + 0x7000 + t % 2 ^ 12 := by
  have hm32 : (0xFFFFFFFF : ℕ) = 2 ^ 32 - 1 := by norm_num
  have hm16 : (0xFFFF : ℕ) = 2 ^ 16 - 1 := by norm_num
  have hm12 : (0xFFF : ℕ) = 2 ^ 12 - 1 := by norm_num
  rw [uuid7msb, hm32, hm16, hm12, Nat.and_pow_two_sub_one_eq_mod,
    Nat.and_pow_two_sub_one_eq_mod, Nat.and_pow_two_sub_one_eq_mod,
    Nat.shiftRight_eq_div_pow, Nat.shiftRight_eq_div_pow]
  have hlow : (0x7000 : ℕ) ||| t % 2 ^ 12 = 0x7000 + t % 2 ^ 12 := by
    have h7 : (0x7000 : ℕ) = 7 <<< 12 := by norm_num [Nat.shiftLeft_eq]
    rw [h7, shiftLeft_lor_eq_add 7 (Nat.mod_lt _ (by norm_num))]
  rw [hlow]
  have hmid : (t / 2 ^ 12 % 2 ^ 16) <<< 16 ||| (0x7000 + t % 2 ^ 12) =
      (t / 2 ^ 12 % 2 ^ 16) <<< 16 + (0x7000 + t % 2 ^ 12) := by
    refine shiftLeft_lor_eq_add _ ?_
    have := Nat.mod_lt t (show 0 < 2 ^ 12 by norm_num)
    norm_num
    omega
  have hhighmask : t / 2 ^ 28 % 2 ^ 32 = t / 2 ^ 28 := by
    refine Nat.mod_eq_of_lt ?_
    have : t / 2 ^ 28 < 2 ^ 60 / 2 ^ 28 + 1 := by
      have := Nat.div_le_div_right (c := 2 ^ 28) (Nat.le_of_lt h)
      omega
    norm_num at this ⊢
    omega
  rw [Nat.lor_assoc, hmid, hhighmask]
  have hrest : (t / 2 ^ 12 % 2 ^ 16) <<< 16 + (0x7000 + t % 2 ^ 12) < 2 ^ 32 := by
    have h1 : t / 2 ^ 12 % 2 ^ 16 < 2 ^ 16 := Nat.mod_lt _ (by norm_num)
    have h2 : t % 2 ^ 12 < 2 ^ 12 := Nat.mod_lt _ (by norm_num)
    rw [Nat.shiftLeft_eq]
    norm_num at h1 h2 ⊢
    omega
  rw [shiftLeft_lor_eq_add _ hrest]
  have hdd : t / 2 ^ 28 = t / 2 ^ 12 / 2 ^ 16 := by
    rw [Nat.div_div_eq_div_mul]
    norm_num
  have hdm : 2 ^ 16 * (t / 2 ^ 12 / 2 ^ 16) + t / 2 ^ 12 % 2 ^ 16 = t / 2 ^ 12 :=
    Nat.div_add_mod _ _
  rw [Nat.shiftLeft_eq, Nat.shiftLeft_eq, hdd]
  norm_num at hdm ⊢
  omega

/-- Arithmetic form of the 64 low bits assembled by uuid7: the two random
bytes sit above the six random bytes. -/
theorem uuid7lsb_eq {ra rb : ℕ} (hrb : rb < 2 ^ 48) :
    uuid7lsb ra rb = ra * 2 ^ 48 + rb := by
  rw [uuid7lsb, shiftLeft_lor_eq_add _ hrb, Nat.shiftLeft_eq]

/-- The 64 low bits fit in 64 bits. -/
theorem uuid7lsb_lt {ra rb : ℕ} (hra : ra < 2 ^ 16) (hrb : rb < 2 ^ 48) :
    uuid7lsb ra rb < 2 ^ 64 := by
  rw [uuid7lsb_eq hrb]
  have : ra * 2 ^ 48 ≤ (2 ^ 16 - 1) * 2 ^ 48 := by
    exact Nat.mul_le_mul_right _ (by omega)
  norm_num at this ⊢
  omega

/-- Arithmetic form of the full 128-bit uuid7 value. -/
theorem uuid7int_eq {t ra rb : ℕ} (ht : t < 2 ^ 60) (hra : ra < 2 ^ 16)
    (hrb : rb < 2 ^ 48) :
    uuid7int t ra rb = uuid7msb t * 2 ^ 64 + uuid7lsb ra rb := by
  rw [uuid7int, shiftLeft_lor_eq_add _ (uuid7lsb_lt hra hrb), Nat.shiftLeft_eq]

/-- The 64 high bits are strictly monotone in the millisecond timestamp. -/
theorem uuid7msb_mono {t1 t2 : ℕ} (h : t1 < t2) (h2 : t2 < 2 ^ 60) :
    uuid7msb t1 < uuid7msb t2 := by
  rw [uuid7msb_eq (lt_trans h h2), uuid7msb_eq h2]
  have e1 := Nat.div_add_mod t1 (2 ^ 12)
  have e2 := Nat.div_add_mod t2 (2 ^ 12)
  have m1 : t1 % 2 ^ 12 < 2 ^ 12 := Nat.mod_lt _ (by norm_num)
  have m2 : t2 % 2 ^ 12 < 2 ^ 12 := Nat.mod_lt _ (by norm_num)
  norm_num at e1 e2 m1 m2 ⊢
  omega

/-- The 64 high bits fit in 64 bits for realistic timestamps. -/
theorem uuid7msb_lt {t : ℕ} (h : t < 2 ^ 60) : uuid7msb t < 2 ^ 64 := by
  rw [uuid7msb_eq h]
  have h1 : t / 2 ^ 12 < 2 ^ 48 := by
    have := Nat.div_le_div_right (c := 2 ^ 12) (Nat.le_of_lt h)
    norm_num at this ⊢
    omega
  have h2 : t % 2 ^ 12 < 2 ^ 12 := Nat.mod_lt _ (by norm_num)
  have h3 : t / 2 ^ 12 * 2 ^ 16 ≤ (2 ^ 48 - 1) * 2 ^ 16 :=
    Nat.mul_le_mul_right _ (by omega)
  norm_num at h2 h3 ⊢
  omega

/-- The full 128-bit value is strictly monotone in the timestamp, whatever
the random bytes are. -/
theorem uuid7int_mono {t1 t2 ra1 rb1 ra2 rb2 : ℕ} (h : t1 < t2) (h2 : t2 < 2 ^ 60)
    (hra1 : ra1 < 2 ^ 16) (hrb1 : rb1 < 2 ^ 48)
    (hra2 : ra2 < 2 ^ 16) (hrb2 : rb2 < 2 ^ 48) :
    uuid7int t1 ra1 rb1 < uuid7int t2 ra2 rb2 := by
  rw [uuid7int_eq (lt_trans h h2) hra1 hrb1, uuid7int_eq h2 hra2 hrb2]
  have hm := uuid7msb_mono h h2
  have hl1 := uuid7lsb_lt hra1 hrb1
  calc uuid7msb t1 * 2 ^ 64 + uuid7lsb ra1 rb1
      < uuid7msb t1 * 2 ^ 64 + 2 ^ 64 := by omega
    _ = (uuid7msb t1 + 1) * 2 ^ 64 := by ring
    _ ≤ uuid7msb t2 * 2 ^ 64 := Nat.mul_le_mul_right _ (by omega)
    _ ≤ uuid7msb t2 * 2 ^ 64 + uuid7lsb ra2 rb2 := Nat.le_add_right _ _

/-- The full 128-bit value fits in 128 bits. -/
theorem uuid7int_lt {t ra rb : ℕ} (ht : t < 2 ^ 60) (hra : ra < 2 ^ 16)
    (hrb : rb < 2 ^ 48) : uuid7int t ra rb < 2 ^ 128 := by
  rw [uuid7int_eq ht hra hrb]
  have h1 := uuid7msb_lt ht
  have h2 := uuid7lsb_lt hra hrb
  have h3 : uuid7msb t * 2 ^ 64 ≤ (2 ^ 64 - 1) * 2 ^ 64 :=
    Nat.mul_le_mul_right _ (by omega)
  norm_num at h2 h3 ⊢
  omega

/-- Comparing two numbers at a divisor: either the quotients differ or
they agree and the remainders compare likewise. -/
theorem div_mod_lt_cases {n1 n2 d : ℕ} (hd : 0 < d) (h : n1 < n2) :
    n1 / d < n2 / d ∨ (n1 / d = n2 / d ∧ n1 % d < n2 % d) := by
  rcases Nat.lt_or_ge (n1 / d) (n2 / d) with h' | h'
  · exact Or.inl h'
  · have heq : n1 / d = n2 / d :=
      Nat.le_antisymm (Nat.div_le_div_right (Nat.le_of_lt h)) h'
    refine Or.inr ⟨heq, ?_⟩
    have e1 := Nat.div_add_mod n1 d
    have e2 := Nat.div_add_mod n2 d
    rw [heq] at e1
    obtain ⟨k, hk⟩ : ∃ k, d * (n2 / d) = k := ⟨_, rfl⟩
    rw [hk] at e1 e2
    omega

/-- Hex digit characters are strictly increasing on digit values. -/
theorem hexChar_fin_lt : ∀ a b : Fin 16, a < b → hexChar a.val < hexChar b.val := by
  decide

/-- Hex digit characters are strictly increasing below 16. -/
theorem hexChar_lt {a b : ℕ} (hb : b < 16) (h : a < b) : hexChar a < hexChar b :=
  hexChar_fin_lt ⟨a, lt_trans h hb⟩ ⟨b, hb⟩ h

/-- The fixed-width hex rendering has the requested width. -/
theorem hexBE_length : ∀ (w n : ℕ), (hexBE w n).length = w
  | 0, _ => rfl
  | w + 1, n => by rw [hexBE, List.length_cons, hexBE_length w]

/-- The fixed-width hex rendering is strictly lexicographically monotone on
values that fit in the width. -/
theorem hexBE_lex {w : ℕ} : ∀ {m n : ℕ}, m < n → n < 16 ^ w →
    List.Lex (· < ·) (hexBE w m) (hexBE w n) := by
  induction w with
  | zero =>
    intro m n h h2
    exfalso
    omega
  | succ w ih =>
    intro m n h h2
    rw [hexBE, hexBE]
    have hq2 : n / 16 ^ w < 16 := by
      rw [Nat.div_lt_iff_lt_mul (by positivity)]
      rw [pow_succ] at h2
      omega
    rcases div_mod_lt_cases (show (0:ℕ) < 16 ^ w by positivity) h with hlt | ⟨heq, hmod⟩
    · exact List.Lex.rel (hexChar_lt hq2 hlt)
    · rw [heq]
      exact List.Lex.cons (ih hmod (Nat.mod_lt _ (by positivity)))

/-- A lexicographic difference between equal-length prefixes decides the
comparison of the full lists, whatever follows. -/
theorem lex_append_right {r : Char → Char → Prop} {l1 l2 : List Char}
    (hlex : List.Lex r l1 l2) (hlen : l1.length = l2.length)
    (m1 m2 : List Char) : List.Lex r (l1 ++ m1) (l2 ++ m2) := by
  revert hlen
  induction hlex with
  | nil =>
    intro hlen
    simp at hlen
  | cons h ih =>
    intro hlen
    exact List.Lex.cons (ih (by simpa using hlen))
  | rel h =>
    intro _
    exact List.Lex.rel h

/-- A shared prefix preserves a lexicographic comparison of the tails. -/
theorem lex_append_left {r : Char → Char → Prop} (l : List Char) {m1 m2 : List Char}
    (h : List.Lex r m1 m2) : List.Lex r (l ++ m1) (l ++ m2) := by
  induction l with
  | nil => simpa
  | cons a l ih => exact List.Lex.cons ih

/-- The canonical dashed hex rendering is strictly lexicographically
monotone on 128-bit values. -/
theorem uuidChars_lex {n1 n2 : ℕ} (h : n1 < n2) (h2 : n2 < 16 ^ 32) :
    List.Lex (· < ·) (uuidChars n1) (uuidChars n2) := by
  rw [uuidChars, uuidChars]
  have hlen : ∀ w m n : ℕ, (hexBE w m).length = (hexBE w n).length := by
    intro w m n
    rw [hexBE_length, hexBE_length]
  have hdvd1 : (16:ℕ) ^ 20 ∣ 16 ^ 24 := pow_dvd_pow 16 (by norm_num)
  have hdvd2 : (16:ℕ) ^ 16 ∣ 16 ^ 20 := pow_dvd_pow 16 (by norm_num)
  have hdvd3 : (16:ℕ) ^ 12 ∣ 16 ^ 16 := pow_dvd_pow 16 (by norm_num)
  rcases div_mod_lt_cases (show (0:ℕ) < 16 ^ 24 by positivity) h with hq | ⟨hq, hr⟩
  · refine lex_append_right (hexBE_lex hq ?_) (hlen 8 _ _) _ _
    rw [Nat.div_lt_iff_lt_mul (by positivity)]
    calc n2 < 16 ^ 32 := h2
      _ = 16 ^ 8 * 16 ^ 24 := by rw [← pow_add]
  · rw [hq]
    refine lex_append_left _ (List.Lex.cons ?_)
    have hr2lt : n2 % 16 ^ 24 < 16 ^ 24 := Nat.mod_lt _ (by positivity)
    rcases div_mod_lt_cases (show (0:ℕ) < 16 ^ 20 by positivity) hr with hq' | ⟨hq', hr'⟩
    · refine lex_append_right (hexBE_lex hq' ?_) (hlen 4 _ _) _ _
      rw [Nat.div_lt_iff_lt_mul (by positivity)]
      calc n2 % 16 ^ 24 < 16 ^ 24 := hr2lt
        _ = 16 ^ 4 * 16 ^ 20 := by rw [← pow_add]
    · rw [hq']
      refine lex_append_left _ (List.Lex.cons ?_)
      rw [Nat.mod_mod_of_dvd n1 hdvd1, Nat.mod_mod_of_dvd n2 hdvd1] at hr'
      have hr3lt : n2 % 16 ^ 20 < 16 ^ 20 := Nat.mod_lt _ (by positivity)
      rcases div_mod_lt_cases (show (0:ℕ) < 16 ^ 16 by positivity) hr' with hq'' | ⟨hq'', hr''⟩
      · refine lex_append_right (hexBE_lex hq'' ?_) (hlen 4 _ _) _ _
        rw [Nat.div_lt_iff_lt_mul (by positivity)]
        calc n2 % 16 ^ 20 < 16 ^ 20 := hr3lt
          _ = 16 ^ 4 * 16 ^ 16 := by rw [← pow_add]
      · rw [hq'']
        refine lex_append_left _ (List.Lex.cons ?_)
        rw [Nat.mod_mod_of_dvd n1 hdvd2, Nat.mod_mod_of_dvd n2 hdvd2] at hr''
        have hr4lt : n2 % 16 ^ 16 < 16 ^ 16 := Nat.mod_lt _ (by positivity)
        rcases div_mod_lt_cases (show (0:ℕ) < 16 ^ 12 by positivity) hr'' with
          hq3 | ⟨hq3, hr3⟩
        · refine lex_append_right (hexBE_lex hq3 ?_) (hlen 4 _ _) _ _
          rw [Nat.div_lt_iff_lt_mul (by positivity)]
          calc n2 % 16 ^ 16 < 16 ^ 16 := hr4lt
            _ = 16 ^ 4 * 16 ^ 12 := by rw [← pow_add]
        · rw [hq3]
          refine lex_append_left _ (List.Lex.cons ?_)
          rw [Nat.mod_mod_of_dvd n1 hdvd3, Nat.mod_mod_of_dvd n2 hdvd3] at hr3
          exact hexBE_lex hr3 (Nat.mod_lt _ (by positivity))

/-- C5: identifiers from a strictly later millisecond sort strictly after
earlier ones, both as 128-bit numbers and lexicographically in the dashed
hex string rendering, for every choice of the random bytes (rand_a is two
urandom bytes, rand_b six; timestamps are 48-bit millisecond values). -/
theorem uuid7_monotone (t1 t2 ra1 rb1 ra2 rb2 : ℕ)
    (ht : t1 < t2) (ht2 : t2 < 2 ^ 48)
    (hra1 : ra1 < 2 ^ 16) (hrb1 : rb1 < 2 ^ 48)
    (hra2 : ra2 < 2 ^ 16) (hrb2 : rb2 < 2 ^ 48) :
    uuid7int t1 ra1 rb1 < uuid7int t2 ra2 rb2 ∧
    uuid7str t1 ra1 rb1 < uuid7str t2 ra2 rb2 := by
  have h60 : t2 < 2 ^ 60 := by
    have : (2:ℕ) ^ 48 < 2 ^ 60 := by norm_num
    omega
  have hnum := uuid7int_mono ht h60 hra1 hrb1 hra2 hrb2
  refine ⟨hnum, ?_⟩
  rw [String.lt_iff_toList_lt]
  show List.Lex (· < ·) (uuidChars (uuid7int t1 ra1 rb1)) (uuidChars (uuid7int t2 ra2 rb2))
  refine uuidChars_lex hnum ?_
  have := uuid7int_lt h60 hra2 hrb2
  calc uuid7int t2 ra2 rb2 < 2 ^ 128 := this
    _ = 16 ^ 32 := by norm_num

/-- Witness for uuid7_monotone at concrete timestamps and random bytes. -/
theorem uuid7_monotone_witness :
    (1000 : ℕ) < 2000 ∧ (2000 : ℕ) < 2 ^ 48 ∧
    (3 : ℕ) < 2 ^ 16 ∧ (4 : ℕ) < 2 ^ 48 ∧ (5 : ℕ) < 2 ^ 16 ∧ (6 : ℕ) < 2 ^ 48 ∧
    (uuid7int 1000 3 4 < uuid7int 2000 5 6 ∧
     uuid7str 1000 3 4 < uuid7str 2000 5 6) :=
  ⟨by norm_num, by norm_num, by norm_num, by norm_num, by norm_num, by norm_num,
   uuid7_monotone 1000 2000 3 4 5 6 (by norm_num) (by norm_num) (by norm_num)
     (by norm_num) (by norm_num) (by norm_num)⟩
